import Mathlib

/-!
Starred-repository monitor: a shallow embedding of `main.go`.

The program fetches the starred repositories of a user page by page, cleans up
each description, renders two templates and writes two files.  This file embeds
the pagination loop (`getUserStaredRepositories`), the two string clean-ups and
the control flow of `main`, and proves properties of them.

Conventions.
* A Go `string` is a Lean `String` (a list of Unicode scalar values); all strings
  handled here come out of a JSON decoder or are constants, so they are valid UTF-8.
* A Go `int` is an `Int` wrapped to 64 bits by `int64`; the conversion
  `githubv4.Int(x)` is the wrap to 32 bits `int32`.
* Library code (the `strings`, `unicode` and `regexp` packages, the GraphQL client,
  the template engine, the markdown converter, the operating system) is either
  modelled by its documented behaviour or taken as a parameter.
-/

set_option autoImplicit false

namespace StarRepo

/-! ## Library: `unicode` and `strings` -/

/-- The two character classes of the `unicode` package consulted by the program.
The range tables behind `unicode.IsLetter` and `unicode.IsNumber` are data of the
standard library; they are taken as a parameter. -/
structure Unicode where
  /-- Membership in `unicode.Letter` (category L). -/
  IsLetter : Char → Bool
  /-- Membership in `unicode.Number` (category N). -/
  IsNumber : Char → Bool

namespace strings

/-- Go `strings.TrimLeftFunc`: the string without its longest leading run of
characters satisfying `f`. -/
def TrimLeftFunc (s : String) (f : Char → Bool) : String :=
  ⟨s.data.dropWhile f⟩

/-- Go `strings.TrimRightFunc`: the string without its longest trailing run of
characters satisfying `f`. -/
def TrimRightFunc (s : String) (f : Char → Bool) : String :=
  ⟨s.data.rdropWhile f⟩

/-- Go `strings.TrimFunc`, which is `TrimRightFunc(TrimLeftFunc(s, f), f)`. -/
def TrimFunc (s : String) (f : Char → Bool) : String :=
  TrimRightFunc (TrimLeftFunc s f) f

/-- Go `strings.Trim`: strip the leading and trailing characters contained in `cutset`. -/
def Trim (s : String) (cutset : String) : String :=
  TrimFunc s (fun r => decide (r ∈ cutset.data))

end strings

/-! ## Library: `regexp`, restricted to bracket expressions -/

/-- A compiled pattern.  The only pattern the program compiles is a bracket
expression of literal characters, so a compiled pattern is the list of the
characters of the class. -/
structure Regexp where
  /-- The members of the character class. -/
  cls : List Char
deriving DecidableEq, Repr

namespace regexp

/-- Go `regexp.Compile` on bracket expressions of literal characters: `[` followed
by the members and a closing `]`.  A hyphen is a literal member when it stands
first or last in the class; a hyphen between two members (a range), an escape, a
negation or a nested class is outside this fragment and is reported as an error,
as is any pattern that is not a single bracket expression. -/
def Compile (pattern : String) : Except String Regexp :=
  match pattern.data with
  | '[' :: rest =>
    match rest.reverse with
    | ']' :: revMembers =>
      let members := revMembers.reverse
      if members = [] then .error "missing closing ]"
      else if members.head? = some '^' then .error "unsupported: negated class"
      else if members.any (fun c => c = '\\' || c = '[' || c = ']') then
        .error "unsupported: escape or nested class"
      else if members.dropLast.tail.any (fun c => c = '-') then
        .error "unsupported: range"
      else .ok ⟨members⟩
    | _ => .error "missing closing ]"
  | _ => .error "unsupported: not a bracket expression"

/-- Go `(*Regexp).ReplaceAllString` for a character class and a replacement
without `$` references: scanning left to right, every character of `src` that
belongs to the class is a match and is replaced by `repl`; every other character
is copied. -/
def ReplaceAllString (re : Regexp) (src : String) (repl : String) : String :=
  ⟨src.data.flatMap (fun c => if c ∈ re.cls then repl.data else [c])⟩

end regexp

/-! ## Constants of `main.go` -/

def readmeTmplFile : String := "README.tmpl"
def indexTmplFile : String := "index.tmpl"
def readme : String := "README.md"
def index : String := "index.html"
def username : String := "gududege"
def repositoryName : String := "Starred-Repository-Monitor"

def envGithubTokenName : String := "USER_GITHUB_TOKEN"
def errTokenNotFoundDescription : String := "$USER_GITHUB_TOKEN environment variable not set."
def patternContentSymbol : String := "[_|-]"
def spaceChar : String := " "
def emptyChar : String := ""
def step1Description : String := "Step1 - Check congfiguration: "
def step2Description : String := "Step2 - Get user starred repositories information via Github api: "
def step3Description : String := "Step3 - Render README template file with data: "
def step4Description : String := "Step4 - Render index.html template file with README content: "
def step5Description : String := "Step5 - Write output: "

def OK : Nat := 0
def ErrCodeRegexFault : Nat := 1
def ErrCodeNoTokenGiven : Nat := 2
def ErrCodeFileNotFound : Nat := 3
def ErrCodeGithubQuery : Nat := 4
def ErrCodeRenderTemplate : Nat := 5
def ErrCodeConvertMarkdown : Nat := 6
def ErrCodeWriteOutput : Nat := 7

/-! ## The two clean-ups -/

/-- The predicate passed to `strings.TrimFunc` at lines 147-149:
`!unicode.IsLetter(r) && !unicode.IsNumber(r)`. -/
def notLetterOrNumber (U : Unicode) (r : Char) : Bool :=
  !U.IsLetter r && !U.IsNumber r

/-- The description clean-up of lines 147-149. -/
def sanitizeDescription (U : Unicode) (description : String) : String :=
  strings.TrimFunc description (notLetterOrNumber U)

/-- The title computation of line 189 for a compiled pattern `regex` and an
arbitrary name: `strings.Trim(regex.ReplaceAllString(name, spaceChar), spaceChar)`. -/
def titleOf (regex : Regexp) (name : String) : String :=
  strings.Trim (regexp.ReplaceAllString regex name spaceChar) spaceChar

/-- Lines 183-189 as a function of the name: compile `patternContentSymbol`, then
compute the title; a compile error is passed on. -/
def sanitizeTitle (name : String) : Except String String :=
  match regexp.Compile patternContentSymbol with
  | .error e => .error e
  | .ok regex => .ok (titleOf regex name)

/-! ## Machine integers -/

/-- The value of a Go `int` (64 bits, two's complement) after an arithmetic
operation whose exact result is `x`. -/
def int64 (x : Int) : Int :=
  (x + 9223372036854775808) % 18446744073709551616 - 9223372036854775808

/-- The conversion `githubv4.Int(x)`: `githubv4.Int` is `int32`, and a Go integer
conversion keeps the low 32 bits. -/
def int32 (x : Int) : Int :=
  (x + 2147483648) % 4294967296 - 2147483648

/-- Go slice indexing `s[i]`: `none` stands for the run-time panic
"index out of range". -/
def sliceIndex {α : Type} (s : List α) (i : Int) : Option α :=
  if i < 0 then none else s[i.toNat]?

/-! ## Data model -/

/-- The record stored for one starred repository (lines 53-65). -/
structure RepositoryInfo where
  Name : String
  NameWithOwner : String
  Description : String
  Url : String
  StargazerCount : Int
  ForkCount : Int
  UpdatedAt : String
  CreatedAt : String
  PushedAt : String
  IsArchived : Bool
  Languages : List String
deriving DecidableEq, Repr

/-- One entry of `Languages.Nodes` (lines 114-116). -/
structure LanguageNode where
  Name : String
deriving DecidableEq, Repr

/-- The `Languages` connection of a node (lines 112-117). -/
structure LanguageConnection where
  TotalCount : Int
  Nodes : List LanguageNode
deriving DecidableEq, Repr

/-- The `Node` of an edge (lines 101-118). -/
structure Node where
  Name : String
  NameWithOwner : String
  Description : String
  Url : String
  StargazerCount : Int
  ForkCount : Int
  UpdatedAt : String
  CreatedAt : String
  PushedAt : String
  IsArchived : Bool
  Languages : LanguageConnection
deriving DecidableEq, Repr

/-- One element of `Edges` (lines 98-119). -/
structure Edge where
  StarredAt : String
  Cursor : String
  Node : Node
deriving DecidableEq, Repr

/-- The decoded answer to one query: `query.Viewer.StarredRepositories` (lines 95-120). -/
structure StarredRepositories where
  IsOverLimit : Bool
  TotalCount : Int
  Edges : List Edge
deriving DecidableEq, Repr

/-- The `variables` map of lines 123-126: the two GraphQL variables of a request. -/
structure Variables where
  count : Int
  cursor : String
deriving DecidableEq, Repr

/-- The remote API as seen through `client.Query`: the answer (an error text or a
decoded page) to a request, given the access token and the requests already
answered during this run.  Any deterministic server, stateful or not, has this form. -/
abbrev Client := String → List Variables → Variables → Except String StarredRepositories

/-! ## The repository fetcher (lines 86-171) -/

/-- The local variables of `getUserStaredRepositories` that live across iterations
of the loop at line 132, and the requests sent so far. -/
structure LoopState where
  stars : List RepositoryInfo
  /-- The map `variables` of the source (the word is reserved in Lean). -/
  vars : Variables
  totalRepositories : Int
  totalFound : Int
  currentFound : Int
  cursor : String
  sent : List Variables
deriving DecidableEq, Repr

/-- How a call of `getUserStaredRepositories` ends: it returns its pair
`(stars, err)`, or the goroutine panics. -/
inductive Outcome where
  | returned (stars : List RepositoryInfo) (err : Option String)
  | panicked
deriving DecidableEq, Repr

/-- Lines 150-153: collect the language names of a node. -/
def languagesOf (node : Node) : List String :=
  node.Languages.Nodes.foldl (fun languages n => languages ++ [n.Name]) []

/-- Lines 146-166, the body of the inner loop: clean the description and build the
record that is appended to `stars`. -/
def repositoryInfoOf (U : Unicode) (edge : Edge) : RepositoryInfo :=
  let description := sanitizeDescription U edge.Node.Description
  { Name := edge.Node.Name
    NameWithOwner := edge.Node.NameWithOwner
    Description := description
    Url := edge.Node.Url
    StargazerCount := edge.Node.StargazerCount
    ForkCount := edge.Node.ForkCount
    UpdatedAt := edge.Node.UpdatedAt
    CreatedAt := edge.Node.CreatedAt
    PushedAt := edge.Node.PushedAt
    IsArchived := edge.Node.IsArchived
    Languages := languagesOf edge.Node }

/-- Lines 145-167: the inner loop over the edges of a page. -/
def storeEdges (U : Unicode) (stars : List RepositoryInfo) (edges : List Edge) :
    List RepositoryInfo :=
  edges.foldl (fun acc edge => acc ++ [repositoryInfoOf U edge]) stars

/-- Lines 137-167: what one iteration does with the page it received.  `none` is
the panic of the index expression at line 141. -/
def pageStep (U : Unicode) (st : LoopState) (page : StarredRepositories) : Option LoopState :=
  let totalRepositories := page.TotalCount
  let currentFound : Int := page.Edges.length
  let totalFound := int64 (st.totalFound + currentFound)
  match sliceIndex page.Edges (int64 (currentFound - 1)) with
  | none => none
  | some last =>
    let cursor := last.Cursor
    some
      { stars := storeEdges U st.stars page.Edges
        vars :=
          { count := min (int32 (int64 (totalRepositories - currentFound))) (int32 100)
            cursor := cursor }
        totalRepositories := totalRepositories
        totalFound := totalFound
        currentFound := currentFound
        cursor := cursor
        sent := st.sent ++ [st.vars] }

/-- Lines 123-131: the state before the first iteration. -/
def initialState : LoopState :=
  { stars := []
    vars := { count := int32 100, cursor := "" }
    totalRepositories := 100
    totalFound := 0
    currentFound := 0
    cursor := ""
    sent := [] }

/-- The loop of lines 132-168 followed by the return of line 170, run for at most
`fuel` evaluations of the loop condition.  The result is the outcome together with
the requests that were sent; `none` means that `fuel` did not suffice. -/
def fetchLoop (U : Unicode) (client : Client) (githubToken : String) :
    Nat → LoopState → Option (Outcome × List Variables)
  | 0, _ => none
  | fuel + 1, st =>
    if st.totalFound < st.totalRepositories then
      match client githubToken st.sent st.vars with
      | .error err => some (.returned st.stars (some err), st.sent ++ [st.vars])
      | .ok page =>
        match pageStep U st page with
        | none => some (.panicked, st.sent ++ [st.vars])
        | some st' => fetchLoop U client githubToken fuel st'
    else some (.returned st.stars none, st.sent)

/-- The function `getUserStaredRepositories` (lines 86-171). -/
def getUserStaredRepositories (U : Unicode) (client : Client) (fuel : Nat)
    (githubToken : String) : Option (Outcome × List Variables) :=
  fetchLoop U client githubToken fuel initialState

/-! ## A synthetic paged source -/

/-- The records of `records` that follow the first one whose cursor is `c`. -/
def afterCursor (c : String) : List Edge → List Edge
  | [] => []
  | e :: es => if e.Cursor = c then es else afterCursor c es

/-- A source that holds the list `records` and never fails: it reports
`records.length` as the total count on every page and answers a request
`(count, cursor)` with the next `min(count, P, remaining)` records after the
cursor, the empty cursor meaning the start. -/
def syntheticSource (records : List Edge) (P : Nat) : Client :=
  fun _ _ v =>
    let rest := if v.cursor = "" then records else afterCursor v.cursor records
    .ok
      { IsOverLimit := false
        TotalCount := records.length
        Edges := rest.take (min v.count.toNat (min P rest.length)) }

/-! ## The pipeline of `main` (lines 173-267) -/

/-- The substitution values of the README template (lines 218-223). -/
structure ReadmeData where
  Title : String
  RepositoryName : String
  UserName : String
  RepositoriesInfo : List RepositoryInfo
deriving DecidableEq, Repr

/-- The substitution values of the index template (lines 239-244). -/
structure IndexData where
  Title : String
  RepositoryName : String
  ReadmeContent : String
  RepositoriesCount : Int
deriving DecidableEq, Repr

/-- The `data` argument of `executeTemplateToStr`: one of the two maps built by `main`. -/
inductive TemplateData where
  | readmeData (d : ReadmeData)
  | indexData (d : IndexData)
deriving DecidableEq, Repr

/-- Everything outside the program that a run depends on. -/
structure Env where
  /-- The Unicode tables of the standard library. -/
  unicode : Unicode
  /-- The function `os.Getenv`: the value of a variable, empty when it is unset. -/
  Getenv : String → String
  /-- The function `os.ReadFile`: the contents of a file, or the error text. -/
  ReadFile : String → Except String String
  /-- The remote API behind `client.Query`. -/
  client : Client
  /-- The method `Parse` of `text/template`: the error text, if the source does not parse. -/
  templateParse : String → Option String
  /-- The method `Execute` of `text/template` on a parsed source: what was written to the
  buffer and the error text, if any. -/
  templateExecute : String → TemplateData → String × Option String
  /-- The function `goldmark.Convert`: what was written to the buffer and the error text,
  if any. -/
  goldmarkConvert : String → String × Option String
  /-- The function `os.WriteFile`, given the writes attempted before: the error text,
  if any. -/
  WriteFile : List (String × String) → String → String → Option String

/-- An observable action of a run. -/
inductive Event where
  /-- Text sent to standard output (`fmt.Print`, or `fmt.Println` with its newline). -/
  | print (text : String)
  /-- A call of `os.ReadFile`. -/
  | readFile (name : String)
  /-- A request sent to the remote API. -/
  | query (v : Variables)
  /-- A call of `os.WriteFile`. -/
  | writeFile (name : String) (content : String)
deriving DecidableEq, Repr

/-- How the process ends: `os.Exit(code)`, or a crash caused by a panic. -/
inductive Exit where
  | code (c : Nat)
  | crash
deriving DecidableEq, Repr

/-- The observable result of a run: its actions in order, and how it ended. -/
structure RunResult where
  events : List Event
  exit : Exit
deriving DecidableEq, Repr

/-- The function `executeTemplateToStr` (lines 67-76). -/
def executeTemplateToStr (env : Env) (tmpl : String) (data : TemplateData) :
    String × Option String :=
  match env.templateParse tmpl with
  | some err => ("", some err)
  | none => env.templateExecute tmpl data

/-- The function `convertMarkdownToHTML` (lines 78-84). -/
def convertMarkdownToHTML (env : Env) (markdown : String) : String × Option String :=
  match env.goldmarkConvert markdown with
  | (_, some err) => ("", some err)
  | (buf, none) => (buf, none)

/-- The event of `fmt.Println` applied to one value. -/
def println (text : String) : Event :=
  .print (text ++ "\n")

/-- Step 5 of `main` (lines 252-266). -/
def writeOutput (env : Env) (ev : List Event) (readmeContent indexContent : String) :
    RunResult :=
  let ev := ev ++ [.print step5Description, .writeFile readme readmeContent]
  match env.WriteFile [] readme readmeContent with
  | some err => ⟨ev ++ [println err], .code ErrCodeWriteOutput⟩
  | none =>
    let ev := ev ++ [.writeFile index indexContent]
    match env.WriteFile [(readme, readmeContent)] index indexContent with
    | some err => ⟨ev ++ [println err], .code ErrCodeWriteOutput⟩
    | none => ⟨ev ++ [println "OK.", println "Finished!"], .code OK⟩

/-- Steps 3 and 4 of `main` (lines 216-250), followed by step 5. -/
def render (env : Env) (ev : List Event) (title readmeTmpl indexTmpl : String)
    (repos : List RepositoryInfo) : RunResult :=
  let ev := ev ++ [.print step3Description]
  match executeTemplateToStr env readmeTmpl
      (.readmeData ⟨title, repositoryName, username, repos⟩) with
  | (_, some err) => ⟨ev ++ [println err], .code ErrCodeRenderTemplate⟩
  | (readmeContent, none) =>
    let ev := ev ++ [println "OK.", .print step4Description]
    match convertMarkdownToHTML env readmeContent with
    | (_, some err) => ⟨ev ++ [println err], .code ErrCodeConvertMarkdown⟩
    | (indexStr, none) =>
      match executeTemplateToStr env indexTmpl
          (.indexData ⟨title, repositoryName, indexStr, repos.length⟩) with
      | (_, some err) => ⟨ev ++ [println err], .code ErrCodeRenderTemplate⟩
      | (indexContent, none) =>
        writeOutput env (ev ++ [println "OK."]) readmeContent indexContent

/-- The function `main` (lines 173-267) in the environment `env`.  `fuel` bounds the
pagination loop of step 2; `none` means that it did not suffice. -/
def main (env : Env) (fuel : Nat) : Option RunResult :=
  -- Step1: Check configuration
  let ev := [Event.print step1Description]
  let token := env.Getenv envGithubTokenName
  if token = "" then
    some ⟨ev ++ [println errTokenNotFoundDescription], .code ErrCodeNoTokenGiven⟩
  else
    match regexp.Compile patternContentSymbol with
    | .error err => some ⟨ev ++ [println err], .code ErrCodeRegexFault⟩
    | .ok regex =>
      let title := titleOf regex repositoryName
      let ev := ev ++ [.readFile readmeTmplFile]
      match env.ReadFile readmeTmplFile with
      | .error err => some ⟨ev ++ [println err], .code ErrCodeFileNotFound⟩
      | .ok readmeTmplBytes =>
        let ev := ev ++ [.readFile indexTmplFile]
        match env.ReadFile indexTmplFile with
        | .error err => some ⟨ev ++ [println err], .code ErrCodeFileNotFound⟩
        | .ok indexTmplBytes =>
          -- Step2: Query stars
          let ev := ev ++ [println "OK.", .print step2Description]
          match getUserStaredRepositories env.unicode env.client fuel token with
          | none => none
          | some (.panicked, sent) => some ⟨ev ++ sent.map .query, .crash⟩
          | some (.returned _ (some err), sent) =>
            some ⟨ev ++ sent.map .query ++ [println err], .code ErrCodeGithubQuery⟩
          | some (.returned repos none, sent) =>
            some (render env (ev ++ sent.map .query ++ [println "OK."]) title
              readmeTmplBytes indexTmplBytes repos)

/-- The names of the files a run wrote (attempted to write), in order. -/
def writtenFiles (r : RunResult) : List String :=
  r.events.filterMap (fun e => match e with
    | .writeFile name _ => some name
    | _ => none)

/-- The requests a run sent to the remote API, in order. -/
def remoteQueries (r : RunResult) : List Variables :=
  r.events.filterMap (fun e => match e with
    | .query v => some v
    | _ => none)

/-! ## Sample inputs -/

/-- A classification that knows the ASCII letters and digits only.  It agrees with
the Unicode tables on every ASCII character and on every character that is in
neither table. -/
def asciiUnicode : Unicode :=
  { IsLetter := Char.isAlpha, IsNumber := Char.isDigit }

/-- The ASCII classification extended by the vulgar fraction one half, which Unicode
lists as a number (category No) that is neither a letter nor a decimal digit. -/
def fractionUnicode : Unicode :=
  { IsLetter := Char.isAlpha, IsNumber := fun c => c.isDigit || c == '½' }

/-- An edge whose strings are all derived from one name. -/
def sampleEdge (name description cursor : String) : Edge :=
  { StarredAt := "2024-01-01T00:00:00Z"
    Cursor := cursor
    Node :=
      { Name := name
        NameWithOwner := "owner/" ++ name
        Description := description
        Url := "https://example.org/" ++ name
        StargazerCount := 7
        ForkCount := 1
        UpdatedAt := "2024-01-02T00:00:00Z"
        CreatedAt := "2023-01-01T00:00:00Z"
        PushedAt := "2024-01-03T00:00:00Z"
        IsArchived := false
        Languages := { TotalCount := 1, Nodes := [⟨"Go"⟩] } } }

/-- Three records with distinct cursors. -/
def threeRecords : List Edge :=
  [sampleEdge "a" "✨ Cool lib! ✨" "c1", sampleEdge "b" "(beta)" "c2", sampleEdge "c" "" "c3"]

/-- A source that reports one starred repository but sends no edge. -/
def emptyPageClient : Client :=
  fun _ _ _ => .ok { IsOverLimit := false, TotalCount := 1, Edges := [] }

/-- The predicate with which `strings.Trim` trims at the cutset `spaceChar`
in `titleOf`. -/
def isSpaceChar (r : Char) : Bool :=
  decide (r ∈ spaceChar.data)

/-- What `ReplaceAllString` with the replacement `spaceChar` puts in the place of
one character in `titleOf`. -/
def replaceChar (re : Regexp) (c : Char) : List Char :=
  if c ∈ re.cls then spaceChar.data else [c]

/-- An environment with the given value of the token variable and the given
files, whose remote source holds `threeRecords` and sends at most two per page;
templates render to their own source text and every write succeeds. -/
def sampleEnv (token : String) (files : List (String × String)) : Env :=
  { unicode := asciiUnicode
    Getenv := fun name => if name = envGithubTokenName then token else ""
    ReadFile := fun name =>
      match files.lookup name with
      | some content => .ok content
      | none => .error ("open " ++ name ++ ": no such file or directory")
    client := syntheticSource threeRecords 2
    templateParse := fun _ => none
    templateExecute := fun tmpl _ => (tmpl, none)
    goldmarkConvert := fun markdown => (markdown, none)
    WriteFile := fun _ _ _ => none }

/-- The record number `i` of `bigSource`; its cursor is the letter `c` written `i + 1` times. -/
def bigEdge (i : Nat) : Edge :=
  sampleEdge "r" "" ⟨List.replicate (i + 1) 'c'⟩

/-- A source list of `2^32 + 1` records with pairwise distinct, non-empty cursors. -/
def bigSource : List Edge :=
  (List.range 4294967297).map bigEdge

/-! ## Lemmas on trimming a list at both ends -/

section Trim

variable {α : Type} (f : α → Bool)

/-- Trimming keeps only elements of the list. -/
theorem mem_of_mem_trim {l : List α} {x : α}
    (h : x ∈ (l.dropWhile f).rdropWhile f) : x ∈ l :=
  (List.dropWhile_suffix f).subset ((List.rdropWhile_prefix f (l.dropWhile f)).subset h)

/-- A trimmed list, when it is not empty, starts with the first element that was kept
by the left trim. -/
theorem trim_cons_shape (l : List α) :
    (l.dropWhile f).rdropWhile f = [] ∨
      ∃ a t, f a = false ∧ (l.dropWhile f).rdropWhile f = a :: t := by
  rcases hm : l.dropWhile f with _ | ⟨a, m⟩
  · left; simp
  · have ha : f a = false := by
      have := List.head?_dropWhile_not f l
      rw [hm] at this
      simpa using this
    rcases hr : (a :: m).rdropWhile f with _ | ⟨b, t⟩
    · left; rfl
    · right
      have hp : (b :: t) <+: (a :: m) := hr ▸ List.rdropWhile_prefix f (a :: m)
      obtain ⟨s, hs⟩ := hp
      have hb : b = a := by simpa using (List.cons.inj hs).1
      exact ⟨a, t, ha, by rw [hb]⟩

/-- Trimming a trimmed list again on the left changes nothing. -/
theorem dropWhile_trim (l : List α) :
    ((l.dropWhile f).rdropWhile f).dropWhile f = (l.dropWhile f).rdropWhile f := by
  rcases trim_cons_shape f l with h | ⟨a, t, ha, h⟩
  · rw [h]; rfl
  · rw [h]; exact List.dropWhile_cons_of_neg (by simp [ha])

/-- Trimming twice is trimming once. -/
theorem trim_trim (l : List α) :
    ((((l.dropWhile f).rdropWhile f).dropWhile f).rdropWhile f)
      = (l.dropWhile f).rdropWhile f := by
  rw [dropWhile_trim, List.rdropWhile_idempotent]

/-- The first element of a trimmed list does not satisfy the predicate. -/
theorem trim_head_not (l : List α) (a : α)
    (h : ((l.dropWhile f).rdropWhile f).head? = some a) : f a = false := by
  rcases trim_cons_shape f l with h0 | ⟨b, t, hb, h1⟩
  · rw [h0] at h; simp at h
  · rw [h1] at h
    have : b = a := by simpa using h
    exact this ▸ hb

/-- The last element of a trimmed list does not satisfy the predicate. -/
theorem trim_getLast_not (l : List α) (b : α)
    (h : ((l.dropWhile f).rdropWhile f).getLast? = some b) : f b = false := by
  have hne : (l.dropWhile f).rdropWhile f ≠ [] := by
    intro h0; rw [h0] at h; simp at h
  have := List.rdropWhile_last_not f (l.dropWhile f) hne
  rw [List.getLast?_eq_getLast _ hne] at h
  have hb : ((l.dropWhile f).rdropWhile f).getLast hne = b := by simpa using h
  rw [hb] at this
  simpa using this

/-- The part kept and the part removed by a right trim make up the list. -/
theorem rdropWhile_append_rtakeWhile_eq (m : List α) :
    m.rdropWhile f ++ m.rtakeWhile f = m := by
  unfold List.rdropWhile List.rtakeWhile
  rw [← List.reverse_append, List.takeWhile_append_dropWhile, List.reverse_reverse]

/-- A list is its trimmed part between the two runs that trimming removes. -/
theorem trim_decomposition (l : List α) :
    l = l.takeWhile f ++ (l.dropWhile f).rdropWhile f ++ (l.dropWhile f).rtakeWhile f := by
  rw [List.append_assoc, rdropWhile_append_rtakeWhile_eq, List.takeWhile_append_dropWhile]

/-- Left trimming stops at the first element that fails the predicate. -/
theorem dropWhile_append_cons_of_neg (xs ys : List α) (a : α) (ha : f a = false) :
    (xs ++ a :: ys).dropWhile f = xs.dropWhile f ++ a :: ys := by
  induction xs with
  | nil => simp [List.dropWhile, ha]
  | cons x xs ih =>
    by_cases hx : f x = true
    · simp [List.dropWhile, hx, ih]
    · simp [List.dropWhile, hx]

/-- Right trimming stops at the last element that fails the predicate. -/
theorem rdropWhile_append_cons_of_neg (xs ys : List α) (a : α) (ha : f a = false) :
    (xs ++ a :: ys).rdropWhile f = xs ++ a :: ys.rdropWhile f := by
  unfold List.rdropWhile
  have h := dropWhile_append_cons_of_neg f ys.reverse xs.reverse a ha
  simp only [List.reverse_append, List.reverse_cons, List.append_assoc, List.singleton_append]
  rw [h]
  simp

end Trim

/-! ## The description clean-up -/

/-- The characters of a cleaned description, in terms of list operations. -/
theorem sanitizeDescription_data (U : Unicode) (s : String) :
    (sanitizeDescription U s).data
      = (s.data.dropWhile (notLetterOrNumber U)).rdropWhile (notLetterOrNumber U) := rfl

/-- A character fails the trimming predicate exactly when it is a letter or a number. -/
theorem notLetterOrNumber_eq_false (U : Unicode) (c : Char) :
    notLetterOrNumber U c = false ↔ (U.IsLetter c = true ∨ U.IsNumber c = true) := by
  unfold notLetterOrNumber
  cases U.IsLetter c <;> cases U.IsNumber c <;> simp

/-- A character satisfies the trimming predicate exactly when it is neither a letter
nor a number. -/
theorem notLetterOrNumber_eq_true (U : Unicode) (c : Char) :
    notLetterOrNumber U c = true ↔ (U.IsLetter c = false ∧ U.IsNumber c = false) := by
  unfold notLetterOrNumber
  cases U.IsLetter c <;> cases U.IsNumber c <;> simp

/-- C5: the description clean-up is idempotent: cleaning a cleaned description
gives the same text again, for every string and every content of the Unicode tables. -/
theorem sanitizeDescription_idempotent (U : Unicode) (s : String) :
    sanitizeDescription U (sanitizeDescription U s) = sanitizeDescription U s := by
  apply String.ext
  rw [sanitizeDescription_data, sanitizeDescription_data, trim_trim]

/-- C6 as stated fails: with the ASCII classification the input `✨ Cool lib! ✨` is
cleaned to `Cool lib`, and under no classification in which `!` is neither a letter
nor a number is the result `Cool lib!`. -/
theorem sanitizeDescription_example_not_bang :
    sanitizeDescription asciiUnicode "✨ Cool lib! ✨" = "Cool lib" ∧
    ¬ ∃ U : Unicode, U.IsLetter '!' = false ∧ U.IsNumber '!' = false ∧
        sanitizeDescription U "✨ Cool lib! ✨" = "Cool lib!" := by
  refine ⟨rfl, ?_⟩
  rintro ⟨U, hl, hn, h⟩
  have hlast : (sanitizeDescription U "✨ Cool lib! ✨").data.getLast? = some '!' := by
    rw [h]; rfl
  rw [sanitizeDescription_data] at hlast
  have := trim_getLast_not (notLetterOrNumber U) _ _ hlast
  rw [notLetterOrNumber_eq_false] at this
  rcases this with h1 | h1 <;> simp_all

/-- C6, amended: whenever `C` and `b` are letters and the sparkles sign, the space and
the exclamation mark are neither letters nor numbers (as in Unicode), the input
`✨ Cool lib! ✨` is cleaned to `Cool lib`: the edges are stripped up to the first and
the last alphanumeric character, the inner space is kept, and the `!` goes with the
trailing edge. -/
theorem sanitizeDescription_example (U : Unicode)
    (hC : U.IsLetter 'C' = true) (hb : U.IsLetter 'b' = true)
    (hstar : notLetterOrNumber U '✨' = true) (hsp : notLetterOrNumber U ' ' = true)
    (hbang : notLetterOrNumber U '!' = true) :
    sanitizeDescription U "✨ Cool lib! ✨" = "Cool lib" := by
  have hC0 : notLetterOrNumber U 'C' = false := by simp [notLetterOrNumber, hC]
  have hb0 : notLetterOrNumber U 'b' = false := by simp [notLetterOrNumber, hb]
  apply String.ext
  rw [sanitizeDescription_data]
  show (List.dropWhile (notLetterOrNumber U)
      ['✨', ' ', 'C', 'o', 'o', 'l', ' ', 'l', 'i', 'b', '!', ' ', '✨']).rdropWhile
        (notLetterOrNumber U) = ['C', 'o', 'o', 'l', ' ', 'l', 'i', 'b']
  simp [List.rdropWhile, List.dropWhile, hC0, hb0, hstar, hsp, hbang]

/-- The amended C6 at the ASCII classification. -/
theorem sanitizeDescription_example_witness :
    asciiUnicode.IsLetter 'C' = true ∧ asciiUnicode.IsLetter 'b' = true ∧
    notLetterOrNumber asciiUnicode '✨' = true ∧ notLetterOrNumber asciiUnicode ' ' = true ∧
    notLetterOrNumber asciiUnicode '!' = true ∧
    sanitizeDescription asciiUnicode "✨ Cool lib! ✨" = "Cool lib" :=
  ⟨rfl, rfl, rfl, rfl, rfl, sanitizeDescription_example asciiUnicode rfl rfl rfl rfl rfl⟩

/-- C7 as stated fails where a number is not a digit: the description `½` is kept as
it is, because `½` is a number for `unicode.IsNumber`, so the cleaned text is not
empty and begins and ends with a character that is neither a letter nor a digit; and
under every classification that lists `½` as a number the description `½` is kept. -/
theorem sanitizeDescription_half_kept :
    sanitizeDescription fractionUnicode "½" = "½" ∧
    fractionUnicode.IsLetter '½' = false ∧ Char.isDigit '½' = false ∧
    ¬ (sanitizeDescription fractionUnicode "½" = "" ∨
        ∃ a b, (sanitizeDescription fractionUnicode "½").data.head? = some a ∧
          (sanitizeDescription fractionUnicode "½").data.getLast? = some b ∧
          (fractionUnicode.IsLetter a = true ∨ a.isDigit = true) ∧
          (fractionUnicode.IsLetter b = true ∨ b.isDigit = true)) ∧
    ¬ ∃ U : Unicode, U.IsNumber '½' = true ∧ sanitizeDescription U "½" ≠ "½" := by
  have hrun : sanitizeDescription fractionUnicode "½" = "½" := rfl
  refine ⟨hrun, rfl, rfl, ?_, ?_⟩
  · rw [hrun]
    rintro (h | ⟨a, b, ha, _, hl, _⟩)
    · exact absurd h (by decide)
    · have ha' : a = '½' := by
        have : some '½' = some a := ha
        exact (Option.some.inj this).symm
      rw [ha'] at hl
      rcases hl with h | h
      · exact absurd h (by decide)
      · exact absurd h (by decide)
  · rintro ⟨U, hU, h⟩
    apply h
    have hnot : notLetterOrNumber U '½' = false := by
      simp [notLetterOrNumber, hU]
    apply String.ext
    rw [sanitizeDescription_data]
    show (List.dropWhile (notLetterOrNumber U) ['½']).rdropWhile (notLetterOrNumber U) = ['½']
    simp [List.rdropWhile, List.dropWhile, hnot]

/-- C7, amended: the description clean-up strips exactly the edges, where the class
kept at the edges is "letter or number" (`unicode.IsNumber`, which contains the
digits): every string is `pre ++ sanitize(s) ++ suf` where `pre` and `suf` consist of
characters that are neither letters nor numbers, and the cleaned text is empty or
begins and ends with a letter or a number; so whatever lies between the first and
the last character that is a letter or a number stays in place. -/
theorem sanitizeDescription_strips_edges (U : Unicode) (s : String) :
    ∃ pre suf : String,
      (∀ c ∈ pre.data, U.IsLetter c = false ∧ U.IsNumber c = false) ∧
      (∀ c ∈ suf.data, U.IsLetter c = false ∧ U.IsNumber c = false) ∧
      s = pre ++ sanitizeDescription U s ++ suf ∧
      (sanitizeDescription U s = "" ∨
        ∃ a b, (sanitizeDescription U s).data.head? = some a ∧
          (sanitizeDescription U s).data.getLast? = some b ∧
          (U.IsLetter a = true ∨ U.IsNumber a = true) ∧
          (U.IsLetter b = true ∨ U.IsNumber b = true)) := by
  refine ⟨⟨s.data.takeWhile (notLetterOrNumber U)⟩,
    ⟨(s.data.dropWhile (notLetterOrNumber U)).rtakeWhile (notLetterOrNumber U)⟩, ?_, ?_, ?_, ?_⟩
  · intro c hc
    exact (notLetterOrNumber_eq_true U c).1 (List.mem_takeWhile_imp hc)
  · intro c hc
    exact (notLetterOrNumber_eq_true U c).1 (List.mem_rtakeWhile_imp hc)
  · apply String.ext
    simp only [String.data_append, sanitizeDescription_data]
    exact trim_decomposition (notLetterOrNumber U) s.data
  · rcases hd : (sanitizeDescription U s).data with _ | ⟨a, t⟩
    · left
      exact String.ext hd
    · right
      have hne : (a :: t) ≠ [] := by simp
      refine ⟨a, (a :: t).getLast hne, rfl, List.getLast?_eq_getLast _ hne, ?_, ?_⟩
      · rw [← notLetterOrNumber_eq_false]
        apply trim_head_not (notLetterOrNumber U) s.data
        rw [← sanitizeDescription_data, hd]; rfl
      · rw [← notLetterOrNumber_eq_false]
        apply trim_getLast_not (notLetterOrNumber U) s.data
        rw [← sanitizeDescription_data, hd]
        exact List.getLast?_eq_getLast _ hne

/-! ## The title clean-up -/

/-- The pattern of the program compiles, to the class of its three separators. -/
theorem Compile_patternContentSymbol :
    regexp.Compile patternContentSymbol = .ok ⟨['_', '|', '-']⟩ := rfl

/-- The title clean-up never fails, and is `titleOf` at the compiled class. -/
theorem sanitizeTitle_eq (name : String) :
    sanitizeTitle name = .ok (titleOf ⟨['_', '|', '-']⟩ name) := by
  unfold sanitizeTitle
  rw [Compile_patternContentSymbol]

/-- The characters of a title, in terms of list operations. -/
theorem titleOf_data (re : Regexp) (name : String) :
    (titleOf re name).data
      = ((name.data.flatMap (replaceChar re)).dropWhile isSpaceChar).rdropWhile isSpaceChar :=
  rfl

/-- After the replacement a character is a space or a character outside the class. -/
theorem mem_replaced (re : Regexp) (l : List Char) (x : Char)
    (hx : x ∈ l.flatMap (replaceChar re)) : x = ' ' ∨ x ∉ re.cls := by
  rw [List.mem_flatMap] at hx
  obtain ⟨c, _, hc⟩ := hx
  unfold replaceChar at hc
  split at hc
  · left; simpa [spaceChar] using hc
  · right
    have : x = c := by simpa using hc
    rwa [this]

/-- C8: for every input string the title clean-up succeeds with a result that
contains no underscore, hyphen or vertical bar and neither begins nor ends with a
space; the name `Starred-Repository-Monitor` becomes `Starred Repository Monitor`. -/
theorem sanitizeTitle_spec (name : String) :
    (∃ t, sanitizeTitle name = .ok t ∧ '_' ∉ t.data ∧ '-' ∉ t.data ∧ '|' ∉ t.data ∧
        t.data.head? ≠ some ' ' ∧ t.data.getLast? ≠ some ' ') ∧
    sanitizeTitle "Starred-Repository-Monitor" = .ok "Starred Repository Monitor" := by
  refine ⟨⟨_, sanitizeTitle_eq name, ?_, ?_, ?_, ?_, ?_⟩, rfl⟩
  · intro h
    rw [titleOf_data] at h
    rcases mem_replaced _ _ _ (mem_of_mem_trim isSpaceChar h) with h1 | h1
    · exact absurd h1 (by decide)
    · exact h1 (by decide)
  · intro h
    rw [titleOf_data] at h
    rcases mem_replaced _ _ _ (mem_of_mem_trim isSpaceChar h) with h1 | h1
    · exact absurd h1 (by decide)
    · exact h1 (by decide)
  · intro h
    rw [titleOf_data] at h
    rcases mem_replaced _ _ _ (mem_of_mem_trim isSpaceChar h) with h1 | h1
    · exact absurd h1 (by decide)
    · exact h1 (by decide)
  · intro h
    rw [titleOf_data] at h
    have := trim_head_not isSpaceChar _ _ h
    simp [isSpaceChar, spaceChar] at this
  · intro h
    rw [titleOf_data] at h
    have := trim_getLast_not isSpaceChar _ _ h
    simp [isSpaceChar, spaceChar] at this

/-- C9 as stated fails: the name `a--b` becomes `a  b`, with two spaces, not `a b`. -/
theorem sanitizeTitle_keeps_run_length :
    sanitizeTitle "a--b" = .ok "a  b" ∧ sanitizeTitle "a--b" ≠ .ok "a b" := by
  refine ⟨rfl, ?_⟩
  intro h
  have h2 : sanitizeTitle "a--b" = .ok "a  b" := rfl
  rw [h2] at h
  exact absurd (Except.ok.inj h) (by decide)

/-- The replacement by `spaceChar` at the class of the three separators maps the
characters one by one: a separator to a space, any other character to itself. -/
theorem replaced_eq_map (l : List Char) :
    l.flatMap (replaceChar ⟨['_', '|', '-']⟩)
      = l.map (fun c => if c = '_' ∨ c = '-' ∨ c = '|' then ' ' else c) := by
  induction l with
  | nil => rfl
  | cons c l ih =>
    rw [List.flatMap_cons, List.map_cons, ih]
    by_cases h : c = '_' ∨ c = '-' ∨ c = '|'
    · have hc : c ∈ (⟨['_', '|', '-']⟩ : Regexp).cls := by
        rcases h with h | h | h <;> simp [h]
      simp only [replaceChar, if_pos hc, if_pos h]
      rfl
    · have hc : c ∉ (⟨['_', '|', '-']⟩ : Regexp).cls := by
        intro hmem
        apply h
        simp only [List.mem_cons, List.mem_singleton] at hmem
        rcases hmem with h1 | h1 | h1 | h1
        · exact Or.inl h1
        · exact Or.inr (Or.inr h1)
        · exact Or.inr (Or.inl h1)
        · exact absurd h1 (List.not_mem_nil c)
      simp only [replaceChar, if_neg hc, if_neg h]
      rfl

/-- The predicate that trims a title is the test for the space. -/
theorem isSpaceChar_eq : isSpaceChar = fun c => decide (c = ' ') := by
  funext c
  simp [isSpaceChar, spaceChar]

/-- C9, amended: for every input string, the replacement puts one space in the place
of each separator character (underscore, hyphen, vertical bar) and copies every other
character, so the text before trimming has the length of the input and a run of `k`
separators has become `k` spaces; the title is that text without its leading and
trailing spaces; and when a run of `k` separators stands between two characters `a`
and `b` that are neither separators nor spaces, the title has exactly `k` spaces
between `a` and `b`. -/
theorem sanitizeTitle_replaces_each (name : String) :
    regexp.ReplaceAllString ⟨['_', '|', '-']⟩ name spaceChar
      = ⟨name.data.map (fun c => if c = '_' ∨ c = '-' ∨ c = '|' then ' ' else c)⟩ ∧
    sanitizeTitle name
      = .ok ⟨((name.data.map (fun c => if c = '_' ∨ c = '-' ∨ c = '|' then ' ' else c)).dropWhile
          (fun c => decide (c = ' '))).rdropWhile (fun c => decide (c = ' '))⟩ ∧
    ∀ (u v r : List Char) (a b : Char),
      name.data = u ++ ([a] ++ r ++ [b]) ++ v →
      (∀ c ∈ r, c = '_' ∨ c = '-' ∨ c = '|') →
      (a ≠ '_' ∧ a ≠ '-' ∧ a ≠ '|' ∧ a ≠ ' ') →
      (b ≠ '_' ∧ b ≠ '-' ∧ b ≠ '|' ∧ b ≠ ' ') →
      sanitizeTitle name
        = .ok ⟨(u.map (fun c => if c = '_' ∨ c = '-' ∨ c = '|' then ' ' else c)).dropWhile
              (fun c => decide (c = ' '))
            ++ ([a] ++ List.replicate r.length ' ' ++ [b])
            ++ (v.map (fun c => if c = '_' ∨ c = '-' ∨ c = '|' then ' ' else c)).rdropWhile
              (fun c => decide (c = ' '))⟩ := by
  have htitle : sanitizeTitle name
      = .ok ⟨((name.data.map (fun c => if c = '_' ∨ c = '-' ∨ c = '|' then ' ' else c)).dropWhile
          (fun c => decide (c = ' '))).rdropWhile (fun c => decide (c = ' '))⟩ := by
    rw [sanitizeTitle_eq]
    congr 1
    apply String.ext
    rw [titleOf_data, replaced_eq_map, isSpaceChar_eq]
  refine ⟨?_, htitle, ?_⟩
  · apply String.ext
    exact replaced_eq_map name.data
  · intro u v r a b hname hr ha hb
    rw [htitle, hname]
    congr 2
    have hfa : (if a = '_' ∨ a = '-' ∨ a = '|' then ' ' else a) = a := by
      obtain ⟨h1, h2, h3, _⟩ := ha
      simp [h1, h2, h3]
    have hfb : (if b = '_' ∨ b = '-' ∨ b = '|' then ' ' else b) = b := by
      obtain ⟨h1, h2, h3, _⟩ := hb
      simp [h1, h2, h3]
    have hfr : r.map (fun c => if c = '_' ∨ c = '-' ∨ c = '|' then ' ' else c)
        = List.replicate r.length ' ' := by
      rw [List.eq_replicate_iff]
      refine ⟨List.length_map _ _, ?_⟩
      intro x hx
      obtain ⟨c, hc, hcx⟩ := List.mem_map.1 hx
      rw [if_pos (hr c hc)] at hcx
      exact hcx.symm
    have has : (fun c : Char => decide (c = ' ')) a = false := by
      simp [ha.2.2.2]
    have hbs : (fun c : Char => decide (c = ' ')) b = false := by
      simp [hb.2.2.2]
    simp only [List.map_append, List.map_cons, List.map_nil, hfa, hfb, hfr]
    have e1 : u.map (fun c => if c = '_' ∨ c = '-' ∨ c = '|' then ' ' else c)
          ++ ([a] ++ List.replicate r.length ' ' ++ [b])
          ++ v.map (fun c => if c = '_' ∨ c = '-' ∨ c = '|' then ' ' else c)
        = u.map (fun c => if c = '_' ∨ c = '-' ∨ c = '|' then ' ' else c)
          ++ a :: (List.replicate r.length ' '
            ++ b :: v.map (fun c => if c = '_' ∨ c = '-' ∨ c = '|' then ' ' else c)) := by
      simp
    rw [e1, dropWhile_append_cons_of_neg _ _ _ a has]
    have e2 : List.dropWhile (fun c : Char => decide (c = ' '))
            (u.map (fun c => if c = '_' ∨ c = '-' ∨ c = '|' then ' ' else c))
          ++ a :: (List.replicate r.length ' '
            ++ b :: v.map (fun c => if c = '_' ∨ c = '-' ∨ c = '|' then ' ' else c))
        = (List.dropWhile (fun c : Char => decide (c = ' '))
            (u.map (fun c => if c = '_' ∨ c = '-' ∨ c = '|' then ' ' else c))
          ++ a :: List.replicate r.length ' ')
          ++ b :: v.map (fun c => if c = '_' ∨ c = '-' ∨ c = '|' then ' ' else c) := by
      simp
    rw [e2, rdropWhile_append_cons_of_neg _ _ _ b hbs]
    simp

/-- The amended C9 at the names `x -y`, where the separator follows a space, and
`x_a-|b y`, where a run of two separators stands between `a` and `b`. -/
theorem sanitizeTitle_replaces_each_witness :
    regexp.ReplaceAllString ⟨['_', '|', '-']⟩ "x -y" spaceChar = "x  y" ∧
    sanitizeTitle "x -y" = .ok "x  y" ∧
    sanitizeTitle "_x-" = .ok "x" ∧
    sanitizeTitle "x_a-|b y" = .ok "x a  b y" := by
  have h : ∀ c ∈ ['-', '|'], c = '_' ∨ c = '-' ∨ c = '|' := by
    intro c hc
    simp at hc
    rcases hc with h | h <;> simp [h]
  exact ⟨(sanitizeTitle_replaces_each "x -y").1, (sanitizeTitle_replaces_each "x -y").2.1,
    (sanitizeTitle_replaces_each "_x-").2.1,
    (sanitizeTitle_replaces_each "x_a-|b y").2.2 ['x', '_'] [' ', 'y'] ['-', '|'] 'a' 'b'
      rfl h (by decide) (by decide)⟩

/-! ## Failure of the configuration step of `main` -/

/-- C10: in every environment in which the token variable is unset or empty, the run
ends with exit code `ErrCodeNoTokenGiven` and writes no file; in every environment in
which the token is not empty but one of the two template files cannot be read, the
run ends with exit code `ErrCodeFileNotFound`, writes no file and sends no request
to the remote API.  Neither case depends on the fuel of the pagination loop. -/
theorem main_configuration_failure (env : Env) (fuel : Nat) :
    (env.Getenv envGithubTokenName = "" →
      ∃ r, main env fuel = some r ∧ r.exit = .code ErrCodeNoTokenGiven ∧
        writtenFiles r = [] ∧ remoteQueries r = []) ∧
    (env.Getenv envGithubTokenName ≠ "" →
      ((∃ e, env.ReadFile readmeTmplFile = .error e) ∨
        (∃ e, env.ReadFile indexTmplFile = .error e)) →
      ∃ r, main env fuel = some r ∧ r.exit = .code ErrCodeFileNotFound ∧
        writtenFiles r = [] ∧ remoteQueries r = []) := by
  constructor
  · intro h
    refine ⟨⟨[.print step1Description, println errTokenNotFoundDescription],
      .code ErrCodeNoTokenGiven⟩, ?_, rfl, rfl, rfl⟩
    simp only [main, h]
    rfl
  · intro h hfile
    rcases h1 : env.ReadFile readmeTmplFile with e1 | c1
    · refine ⟨⟨[.print step1Description, .readFile readmeTmplFile, println e1],
        .code ErrCodeFileNotFound⟩, ?_, rfl, rfl, rfl⟩
      simp only [main, if_neg h, Compile_patternContentSymbol, h1]
      rfl
    · rcases hfile with ⟨e, he⟩ | ⟨e, he⟩
      · rw [h1] at he; cases he
      · refine ⟨⟨[.print step1Description, .readFile readmeTmplFile,
          .readFile indexTmplFile, println e], .code ErrCodeFileNotFound⟩, ?_, rfl, rfl, rfl⟩
        simp only [main, if_neg h, Compile_patternContentSymbol, h1, he]
        rfl

/-- C10 at three sample environments: no token; a token but no README template; a
token and the README template but no index template. -/
theorem main_configuration_failure_witness :
    (∃ r, main (sampleEnv "" []) 0 = some r ∧ r.exit = .code ErrCodeNoTokenGiven ∧
        writtenFiles r = [] ∧ remoteQueries r = []) ∧
    (∃ r, main (sampleEnv "t" [(indexTmplFile, "x")]) 0 = some r ∧
        r.exit = .code ErrCodeFileNotFound ∧ writtenFiles r = [] ∧ remoteQueries r = []) ∧
    (∃ r, main (sampleEnv "t" [(readmeTmplFile, "x")]) 0 = some r ∧
        r.exit = .code ErrCodeFileNotFound ∧ writtenFiles r = [] ∧ remoteQueries r = []) :=
  ⟨(main_configuration_failure (sampleEnv "" []) 0).1 rfl,
   (main_configuration_failure (sampleEnv "t" [(indexTmplFile, "x")]) 0).2 (by decide)
      (Or.inl ⟨_, rfl⟩),
   (main_configuration_failure (sampleEnv "t" [(readmeTmplFile, "x")]) 0).2 (by decide)
      (Or.inr ⟨_, rfl⟩)⟩

/-! ## The fetcher on an empty page -/

/-- Indexing the last position of an empty slice panics. -/
theorem sliceIndex_nil_last {α : Type} :
    sliceIndex ([] : List α) (int64 (((([] : List α).length : Nat) : Int) - 1)) = none := rfl

/-- C2, evaluated: a page without edges makes the iteration panic at the index
expression of line 141, whatever total count the page reports; so against a source
that reports one repository and sends no edge, the fetcher panics after its first
request instead of returning a query error. -/
theorem empty_page_panics (U : Unicode) (st : LoopState) (over : Bool) (total : Int)
    (fuel : Nat) (token : String) :
    pageStep U st ⟨over, total, []⟩ = none ∧
    getUserStaredRepositories U emptyPageClient (fuel + 1) token
      = some (.panicked, [⟨100, ""⟩]) :=
  ⟨rfl, rfl⟩

/-- C3, evaluated: against a source that holds no record (total count 0, no edges)
the fetcher panics after its first request instead of returning the empty list. -/
theorem empty_source_panics (U : Unicode) (P fuel : Nat) (token : String) :
    getUserStaredRepositories U (syntheticSource [] P) (fuel + 1) token
      = some (.panicked, [⟨100, ""⟩]) := by
  have hpage : syntheticSource [] P token [] ⟨int32 100, ""⟩
      = .ok ⟨false, 0, []⟩ := by
    simp [syntheticSource]
  simp only [getUserStaredRepositories, fetchLoop, initialState, hpage]
  rfl

/-- C4, evaluated: against a source of three records that sends one per page, the
third request (sent after two pages, with total count 3 and 2 records accumulated)
asks for 2 records and not for `min(100, 3 - 2) = 1`; in general the count set after
a page is the total count minus the size of that page alone (converted to 32 bits
and capped at 100), whatever has been accumulated before. -/
theorem next_count_subtracts_last_page :
    (getUserStaredRepositories asciiUnicode (syntheticSource threeRecords 1) 4 "t").map Prod.snd
      = some [⟨100, ""⟩, ⟨2, "c1"⟩, ⟨2, "c2"⟩] ∧
    (2 : Int) ≠ min 100 (3 - 2) ∧
    ∀ (U : Unicode) (st st' : LoopState) (page : StarredRepositories),
      pageStep U st page = some st' →
      st'.vars.count
        = min (int32 (int64 (page.TotalCount - (page.Edges.length : Int)))) (int32 100) := by
  refine ⟨rfl, by decide, ?_⟩
  intro U st st' page h
  rcases hlast : sliceIndex page.Edges (int64 ((page.Edges.length : Int) - 1)) with _ | last
  · simp only [pageStep, hlast] at h
    cases h
  · simp only [pageStep, hlast] at h
    cases h
    rfl

/-! ## The fetcher against a synthetic source -/

/-- The constant 100 fits the GraphQL integer type. -/
theorem int32_100 : int32 100 = 100 := rfl

/-- A value in the 64-bit range is not changed by the wrap. -/
theorem int64_of_inRange (x : Int) (h0 : -9223372036854775808 ≤ x)
    (h1 : x < 9223372036854775808) : int64 x = x := by
  unfold int64; omega

/-- A value in the 32-bit range is not changed by the conversion. -/
theorem int32_of_inRange (x : Int) (h0 : -2147483648 ≤ x) (h1 : x < 2147483648) :
    int32 x = x := by
  unfold int32; omega

/-- The language loop collects the names in order. -/
theorem languagesOf_eq (node : Node) :
    languagesOf node = node.Languages.Nodes.map LanguageNode.Name := by
  unfold languagesOf
  have h : ∀ (l : List LanguageNode) (acc : List String),
      l.foldl (fun languages n => languages ++ [n.Name]) acc
        = acc ++ l.map LanguageNode.Name := by
    intro l
    induction l with
    | nil => intro acc; simp
    | cons n l ih => intro acc; simp [ih]
  simpa using h node.Languages.Nodes []

/-- The inner loop appends one record per edge, in order. -/
theorem storeEdges_eq (U : Unicode) (stars : List RepositoryInfo) (edges : List Edge) :
    storeEdges U stars edges = stars ++ edges.map (repositoryInfoOf U) := by
  unfold storeEdges
  induction edges generalizing stars with
  | nil => simp
  | cons e es ih => simp [ih]

/-- With pairwise distinct cursors, the records after the cursor of record `i` are
the records from position `i + 1` on. -/
theorem afterCursor_eq_drop (records : List Edge)
    (hnodup : (records.map Edge.Cursor).Nodup) (i : Nat) (e : Edge)
    (hi : records[i]? = some e) : afterCursor e.Cursor records = records.drop (i + 1) := by
  induction records generalizing i with
  | nil => simp at hi
  | cons x xs ih =>
    rw [List.map_cons, List.nodup_cons] at hnodup
    cases i with
    | zero =>
      have hx : x = e := by simpa using hi
      simp [afterCursor, hx]
    | succ i =>
      have hi' : xs[i]? = some e := by simpa using hi
      have hmem : e.Cursor ∈ xs.map Edge.Cursor :=
        List.mem_map_of_mem Edge.Cursor (List.getElem?_mem hi')
      have hxe : x.Cursor ≠ e.Cursor := fun h => hnodup.1 (h ▸ hmem)
      simp [afterCursor, hxe, ih hnodup.2 i hi']

/-- The answer of the synthetic source to a request whose cursor marks position `m`:
the total count and the next `min(count, P, remaining)` records. -/
theorem syntheticSource_answer (records : List Edge) (P : Nat) (token : String)
    (sent : List Variables) (v : Variables) (m : Nat)
    (hnodup : (records.map Edge.Cursor).Nodup) (hne : "" ∉ records.map Edge.Cursor)
    (hc : (m = 0 ∧ v.cursor = "") ∨
      (1 ≤ m ∧ ∃ e, records[m - 1]? = some e ∧ e.Cursor = v.cursor)) :
    syntheticSource records P token sent v
      = .ok ⟨false, records.length,
          (records.drop m).take (min v.count.toNat (min P (records.length - m)))⟩ := by
  unfold syntheticSource
  rcases hc with ⟨hm, hcur⟩ | ⟨hm, e, he, hcur⟩
  · simp [hm, hcur]
  · have hmem : e.Cursor ∈ records.map Edge.Cursor :=
      List.mem_map_of_mem Edge.Cursor (List.getElem?_mem he)
    have hne' : v.cursor ≠ "" := by
      intro h
      rw [← hcur] at h
      exact hne (h ▸ hmem)
    have hdrop := afterCursor_eq_drop records hnodup (m - 1) e he
    rw [hcur] at hdrop
    have hm1 : m - 1 + 1 = m := by omega
    rw [hm1] at hdrop
    simp [hne', hdrop]

/-- One iteration on a page of `j` records taken from position `m` of the source:
the records are appended, the counters advance to `m + j`, the next count is
positive as long as records remain, and the next cursor is that of record `m + j`. -/
theorem pageStep_synthetic (U : Unicode) (records : List Edge) (st : LoopState) (m j : Nat)
    (hstars : st.stars = (records.take m).map (repositoryInfoOf U))
    (htf : st.totalFound = m) (hj1 : 1 ≤ j) (hj : m + j ≤ records.length)
    (h31 : records.length < 2147483648) :
    ∃ st', pageStep U st ⟨false, records.length, (records.drop m).take j⟩ = some st' ∧
      st'.stars = (records.take (m + j)).map (repositoryInfoOf U) ∧
      st'.totalFound = ((m + j : Nat) : Int) ∧
      st'.totalRepositories = records.length ∧
      (m + j < records.length → 1 ≤ st'.vars.count) ∧
      (∃ e, records[m + j - 1]? = some e ∧ e.Cursor = st'.vars.cursor) := by
  have hlen : ((records.drop m).take j).length = j := by
    rw [List.length_take, List.length_drop]; omega
  have hidx : m + (j - 1) < records.length := by omega
  have hlast : sliceIndex ((records.drop m).take j)
      (int64 ((((records.drop m).take j).length : Int) - 1)) = some records[m + (j - 1)] := by
    rw [hlen, int64_of_inRange _ (by omega) (by omega)]
    unfold sliceIndex
    have h0 : ¬ ((j : Int) - 1 < 0) := by omega
    have h1 : ((j : Int) - 1).toNat = j - 1 := by omega
    rw [if_neg h0, h1, List.getElem?_take_of_lt (by omega), List.getElem?_drop,
      List.getElem?_eq_getElem hidx]
  have hstep : pageStep U st ⟨false, records.length, (records.drop m).take j⟩
      = some
        { stars := storeEdges U st.stars ((records.drop m).take j)
          vars :=
            { count := min (int32 (int64 ((records.length : Int)
                - (((records.drop m).take j).length : Int)))) (int32 100)
              cursor := records[m + (j - 1)].Cursor }
          totalRepositories := records.length
          totalFound := int64 (st.totalFound + (((records.drop m).take j).length : Int))
          currentFound := (((records.drop m).take j).length : Int)
          cursor := records[m + (j - 1)].Cursor
          sent := st.sent ++ [st.vars] } := by
    simp only [pageStep, hlast]
  refine ⟨_, hstep, ?_, ?_, rfl, ?_, ?_⟩
  · simp only [storeEdges_eq, hstars, List.take_add, List.map_append]
  · simp only [hlen, htf]
    rw [int64_of_inRange _ (by omega) (by omega)]
    push_cast; rfl
  · intro hlt
    simp only [hlen, int32_100]
    rw [int64_of_inRange _ (by omega) (by omega), int32_of_inRange _ (by omega) (by omega)]
    omega
  · have hm : m + j - 1 = m + (j - 1) := by omega
    exact ⟨records[m + (j - 1)], by rw [hm]; exact List.getElem?_eq_getElem hidx, rfl⟩

/-- The loop against a synthetic source, started in a state that has accumulated the
first `m` records: with more fuel than records remain it returns the whole list. -/
theorem fetchLoop_synthetic (U : Unicode) (records : List Edge) (P : Nat) (token : String)
    (hN : 1 ≤ records.length) (h31 : records.length < 2147483648) (hP : 1 ≤ P)
    (hnodup : (records.map Edge.Cursor).Nodup) (hne : "" ∉ records.map Edge.Cursor) :
    ∀ (fuel : Nat) (st : LoopState) (m : Nat),
      st.stars = (records.take m).map (repositoryInfoOf U) →
      st.totalFound = m → m ≤ records.length →
      ((m = 0 ∧ st.totalRepositories = 100 ∧ st.vars = ⟨100, ""⟩) ∨
        (1 ≤ m ∧ st.totalRepositories = records.length ∧
          (m < records.length → 1 ≤ st.vars.count) ∧
          ∃ e, records[m - 1]? = some e ∧ e.Cursor = st.vars.cursor)) →
      records.length - m < fuel →
      ∃ sent, fetchLoop U (syntheticSource records P) token fuel st
        = some (.returned (records.map (repositoryInfoOf U)) none, sent) := by
  intro fuel
  induction fuel with
  | zero => intro st m _ _ _ _ hfuel; omega
  | succ fuel ih =>
    intro st m hstars htf hm hpos hfuel
    by_cases hdone : m = records.length
    · -- all records are there: the loop condition fails
      have htr : st.totalRepositories = records.length := by
        rcases hpos with ⟨h0, _, _⟩ | ⟨_, h, _⟩
        · omega
        · exact h
      have hcond : ¬ (st.totalFound < st.totalRepositories) := by
        rw [htf, htr, hdone]; omega
      refine ⟨st.sent, ?_⟩
      simp only [fetchLoop, if_neg hcond, hstars, hdone, List.take_length]
    · have hlt : m < records.length := by omega
      have hcond : st.totalFound < st.totalRepositories := by
        rcases hpos with ⟨h0, h, _⟩ | ⟨_, h, _⟩
        · rw [htf, h, h0]; decide
        · rw [htf, h]; exact_mod_cast hlt
      have hcount : 1 ≤ st.vars.count := by
        rcases hpos with ⟨_, _, h⟩ | ⟨_, _, h, _⟩
        · rw [h]; decide
        · exact h hlt
      have hcur : (m = 0 ∧ st.vars.cursor = "") ∨
          (1 ≤ m ∧ ∃ e, records[m - 1]? = some e ∧ e.Cursor = st.vars.cursor) := by
        rcases hpos with ⟨h0, _, h⟩ | ⟨h1, _, _, h⟩
        · left; exact ⟨h0, by rw [h]⟩
        · right; exact ⟨h1, h⟩
      have hanswer := syntheticSource_answer records P token st.sent st.vars m hnodup hne hcur
      have hj1 : 1 ≤ min st.vars.count.toNat (min P (records.length - m)) := by
        have : 1 ≤ st.vars.count.toNat := by omega
        omega
      have hj : m + min st.vars.count.toNat (min P (records.length - m)) ≤ records.length := by
        omega
      obtain ⟨st', hstep, hstars', htf', htr', hcount', hcur'⟩ :=
        pageStep_synthetic U records st m _ hstars htf hj1 hj h31
      obtain ⟨sent, hrec⟩ := ih st' _ hstars' htf' hj
        (Or.inr ⟨by omega, htr', hcount', hcur'⟩) (by omega)
      refine ⟨sent, ?_⟩
      simp only [fetchLoop, if_pos hcond, hanswer, hstep, hrec]

/-- The record built for an edge, field by field. -/
theorem repositoryInfoOf_fields (U : Unicode) (e : Edge) :
    repositoryInfoOf U e =
      { Name := e.Node.Name
        NameWithOwner := e.Node.NameWithOwner
        Description := sanitizeDescription U e.Node.Description
        Url := e.Node.Url
        StargazerCount := e.Node.StargazerCount
        ForkCount := e.Node.ForkCount
        UpdatedAt := e.Node.UpdatedAt
        CreatedAt := e.Node.CreatedAt
        PushedAt := e.Node.PushedAt
        IsArchived := e.Node.IsArchived
        Languages := e.Node.Languages.Nodes.map LanguageNode.Name } := by
  simp only [repositoryInfoOf, languagesOf_eq]

/-- C1, amended: for every source list of `N` records with `1 ≤ N < 2^31`, whose
cursors are pairwise distinct and not empty, and every page cap `P` with
`1 ≤ P ≤ 100`, the fetcher run against the synthetic source with more than `N` units
of fuel returns without error a list of exactly `N` records: the source list in
source order, each record once, every field copied unchanged (the language names in
order) except `Description`, which is the cleaned source description. -/
theorem getUserStaredRepositories_synthetic (U : Unicode) (records : List Edge) (P : Nat)
    (token : String) (fuel : Nat)
    (hN : 1 ≤ records.length) (h31 : records.length < 2147483648)
    (hP : 1 ≤ P) (_hP100 : P ≤ 100)
    (hnodup : (records.map Edge.Cursor).Nodup) (hne : "" ∉ records.map Edge.Cursor)
    (hfuel : records.length < fuel) :
    ∃ stars,
      (getUserStaredRepositories U (syntheticSource records P) fuel token).map Prod.fst
        = some (.returned stars none) ∧
      stars.length = records.length ∧
      stars = records.map (fun e =>
        { Name := e.Node.Name
          NameWithOwner := e.Node.NameWithOwner
          Description := sanitizeDescription U e.Node.Description
          Url := e.Node.Url
          StargazerCount := e.Node.StargazerCount
          ForkCount := e.Node.ForkCount
          UpdatedAt := e.Node.UpdatedAt
          CreatedAt := e.Node.CreatedAt
          PushedAt := e.Node.PushedAt
          IsArchived := e.Node.IsArchived
          Languages := e.Node.Languages.Nodes.map LanguageNode.Name }) := by
  obtain ⟨sent, h⟩ := fetchLoop_synthetic U records P token hN h31 hP hnodup hne fuel
    initialState 0 rfl rfl (Nat.zero_le _) (Or.inl ⟨rfl, rfl, rfl⟩) (by omega)
  refine ⟨records.map (repositoryInfoOf U), ?_, by simp, ?_⟩
  · unfold getUserStaredRepositories
    rw [h]; rfl
  · exact List.map_congr_left (fun e _ => repositoryInfoOf_fields U e)

/-- The amended C1 at three records, two per page. -/
theorem getUserStaredRepositories_synthetic_witness :
    (threeRecords.map Edge.Cursor).Nodup ∧ "" ∉ threeRecords.map Edge.Cursor ∧
    ∃ stars,
      (getUserStaredRepositories asciiUnicode (syntheticSource threeRecords 2) 4 "t").map
        Prod.fst = some (.returned stars none) ∧
      stars.length = 3 ∧ stars.map RepositoryInfo.Description = ["Cool lib", "beta", ""] := by
  have h1 : (threeRecords.map Edge.Cursor).Nodup := by decide
  have h2 : "" ∉ threeRecords.map Edge.Cursor := by decide
  obtain ⟨stars, hrun, hlen, hstars⟩ :=
    getUserStaredRepositories_synthetic asciiUnicode threeRecords 2 "t" 4
      (by decide) (by decide) (by decide) (by decide) h1 h2 (by decide)
  refine ⟨h1, h2, stars, hrun, hlen, ?_⟩
  rw [hstars]; rfl

/-! ## A total count beyond the 32-bit range -/

/-- An iteration whose request is answered by a page on which `pageStep` succeeds
continues with the new state. -/
theorem fetchLoop_page (U : Unicode) (client : Client) (token : String) (fuel : Nat)
    (st st' : LoopState) (page : StarredRepositories)
    (hcond : st.totalFound < st.totalRepositories)
    (hanswer : client token st.sent st.vars = .ok page)
    (hstep : pageStep U st page = some st') :
    fetchLoop U client token (fuel + 1) st = fetchLoop U client token fuel st' := by
  simp only [fetchLoop, if_pos hcond, hanswer, hstep]

/-- An iteration whose request is answered by a page without edges panics. -/
theorem fetchLoop_empty_page (U : Unicode) (client : Client) (token : String) (fuel : Nat)
    (st : LoopState) (page : StarredRepositories)
    (hcond : st.totalFound < st.totalRepositories)
    (hanswer : client token st.sent st.vars = .ok page)
    (hempty : page.Edges = []) :
    fetchLoop U client token (fuel + 1) st = some (.panicked, st.sent ++ [st.vars]) := by
  have hstep : pageStep U st page = none := by
    simp only [pageStep, hempty]
    rfl
  simp only [fetchLoop, if_pos hcond, hanswer, hstep]

/-- The state after a page whose last edge is `last`. -/
theorem pageStep_of_last (U : Unicode) (st : LoopState) (page : StarredRepositories)
    (last : Edge)
    (h : sliceIndex page.Edges (int64 ((page.Edges.length : Int) - 1)) = some last) :
    pageStep U st page = some
      { stars := storeEdges U st.stars page.Edges
        vars :=
          { count := min (int32 (int64 (page.TotalCount - (page.Edges.length : Int))))
              (int32 100)
            cursor := last.Cursor }
        totalRepositories := page.TotalCount
        totalFound := int64 (st.totalFound + (page.Edges.length : Int))
        currentFound := (page.Edges.length : Int)
        cursor := last.Cursor
        sent := st.sent ++ [st.vars] } := by
  simp only [pageStep, h]

/-- Against a source of `2^32 + 1` records that sends one record per page, the count
computed after the first page is `int32 (2^32) = 0`: the first iteration leads to a
state from which the next iteration asks for no record, receives an empty page and
panics. -/
theorem fetch_wrapped_count (U : Unicode) (e : Edge) (rest : List Edge)
    (token : String) (hlen : rest.length = 4294967296) :
    ∃ st1,
      (∀ fuel, getUserStaredRepositories U (syntheticSource (e :: rest) 1) (fuel + 1) token
        = fetchLoop U (syntheticSource (e :: rest) 1) token fuel st1) ∧
      (∀ fuel, fetchLoop U (syntheticSource (e :: rest) 1) token (fuel + 1) st1
        = some (.panicked, [⟨100, ""⟩, ⟨0, e.Cursor⟩])) := by
  have hN : (((e :: rest).length : Nat) : Int) = 4294967297 := by
    rw [List.length_cons, hlen]; rfl
  have hfirst : syntheticSource (e :: rest) 1 token initialState.sent initialState.vars
      = .ok ⟨false, 4294967297, [e]⟩ := by
    have hmin : min (100 : Int).toNat (min 1 (e :: rest).length) = 1 := by
      rw [List.length_cons, hlen]; rfl
    have hv : initialState.vars = ⟨100, ""⟩ := rfl
    rw [hv]
    simp only [syntheticSource, if_true, hmin, hN]
    rfl
  have hidx : sliceIndex [e] (int64 ((([e] : List Edge).length : Int) - 1)) = some e := by
    rw [List.length_singleton, int64_of_inRange _ (by norm_num) (by norm_num)]
    rfl
  have hcount : min (int32 (int64 ((4294967297 : Int) - (([e] : List Edge).length : Int))))
      (int32 100) = 0 := by
    rw [List.length_singleton, int64_of_inRange _ (by norm_num) (by norm_num), int32_100]
    have : int32 ((4294967297 : Int) - ((1 : Nat) : Int)) = 0 := by
      unfold int32; norm_num
    rw [this]; rfl
  have htotal : int64 ((0 : Int) + (([e] : List Edge).length : Int)) = 1 := by
    rw [List.length_singleton, int64_of_inRange _ (by norm_num) (by norm_num)]
    rfl
  obtain ⟨st1, hstep, hvars, htf, htr, hsent⟩ :
      ∃ st1, pageStep U initialState ⟨false, 4294967297, [e]⟩ = some st1 ∧
        st1.vars = ⟨0, e.Cursor⟩ ∧ st1.totalFound = 1 ∧
        st1.totalRepositories = 4294967297 ∧ st1.sent = [⟨100, ""⟩] :=
    ⟨_, pageStep_of_last U initialState ⟨false, 4294967297, [e]⟩ e hidx,
      congrArg (fun c => (⟨c, e.Cursor⟩ : Variables)) hcount, htotal, rfl, rfl⟩
  have hcond0 : initialState.totalFound < initialState.totalRepositories := by
    show (0 : Int) < 100
    norm_num
  have hcond1 : st1.totalFound < st1.totalRepositories := by
    rw [htf, htr]; norm_num
  have hsecond : syntheticSource (e :: rest) 1 token st1.sent st1.vars
      = .ok ⟨false, 4294967297, []⟩ := by
    have hmin : ∀ n : Nat, min (0 : Int).toNat n = 0 := by
      intro n
      have : (0 : Int).toNat = 0 := rfl
      omega
    rw [hvars]
    simp only [syntheticSource, hmin, hN, List.take_zero]
  refine ⟨st1, ?_, ?_⟩
  · intro fuel
    unfold getUserStaredRepositories
    exact fetchLoop_page U _ token fuel initialState st1 _ hcond0 hfirst hstep
  · intro fuel
    rw [fetchLoop_empty_page U _ token fuel st1 _ hcond1 hsecond rfl, hsent, hvars]
    rfl


/-- The list `bigSource` starts with the record number 0. -/
theorem bigSource_eq_cons :
    bigSource = bigEdge 0 :: ((List.range 4294967296).map Nat.succ).map bigEdge := by
  unfold bigSource
  rw [show (4294967297 : Nat) = 4294967296 + 1 from rfl, List.range_succ_eq_map,
    List.map_cons]

/-- The cursors of `bigSource` are pairwise distinct. -/
theorem bigSource_nodup : (bigSource.map Edge.Cursor).Nodup := by
  unfold bigSource
  rw [List.map_map]
  apply List.Nodup.map _ (List.nodup_range _)
  intro i j h
  have h1 : List.replicate (i + 1) 'c' = List.replicate (j + 1) 'c' :=
    congrArg String.data h
  have h2 := congrArg List.length h1
  simp only [List.length_replicate] at h2
  omega

/-- No cursor of `bigSource` is empty. -/
theorem bigSource_cursor_ne_empty : "" ∉ bigSource.map Edge.Cursor := by
  unfold bigSource
  rw [List.map_map]
  intro h
  obtain ⟨i, _, hi⟩ := List.mem_map.1 h
  have h1 : List.replicate (i + 1) 'c' = [] := congrArg String.data hi
  simp [List.replicate_succ] at h1

/-- C1 as stated fails for a total count beyond the range of the GraphQL integer
type: `bigSource` holds `2^32 + 1` records with pairwise distinct, non-empty cursors;
with page cap 1 the fetcher panics on its second page, and with no amount of fuel does
it return a list. -/
theorem getUserStaredRepositories_bigSource :
    bigSource.length = 4294967297 ∧
    (bigSource.map Edge.Cursor).Nodup ∧ "" ∉ bigSource.map Edge.Cursor ∧
    getUserStaredRepositories asciiUnicode (syntheticSource bigSource 1) 2 "t"
      = some (.panicked, [⟨100, ""⟩, ⟨0, "c"⟩]) ∧
    ¬ ∃ fuel stars sent,
      getUserStaredRepositories asciiUnicode (syntheticSource bigSource 1) fuel "t"
        = some (.returned stars none, sent) := by
  have hrest : (((List.range 4294967296).map Nat.succ).map bigEdge).length = 4294967296 := by
    simp only [List.length_map, List.length_range]
  obtain ⟨st1, hfirst, hsecond⟩ :=
    fetch_wrapped_count asciiUnicode (bigEdge 0) _ "t" hrest
  rw [← bigSource_eq_cons] at hfirst hsecond
  have hpanic : ∀ fuel,
      getUserStaredRepositories asciiUnicode (syntheticSource bigSource 1) (fuel + 2) "t"
        = some (.panicked, [⟨100, ""⟩, ⟨0, "c"⟩]) := by
    intro fuel
    rw [hfirst (fuel + 1), hsecond fuel]
    rfl
  refine ⟨by unfold bigSource; simp only [List.length_map, List.length_range],
    bigSource_nodup, bigSource_cursor_ne_empty, hpanic 0, ?_⟩
  rintro ⟨fuel, stars, sent, h⟩
  match fuel, h with
  | 0, h => exact absurd h (by simp [getUserStaredRepositories, fetchLoop])
  | 1, h =>
    rw [hfirst 0] at h
    exact absurd h (by simp [fetchLoop])
  | fuel + 2, h =>
    rw [hpanic fuel] at h
    cases h

end StarRepo
